import Mathlib

/-!
Verification of the winnow parser-combinator core.

The embedding models byte streams as lists of naturals together with the
static flag of the stream type that says whether the stream is a streaming
(partial) stream.  Parsers are functions from a stream to a result that is
either success (remaining stream plus output) or an error outcome
(Backtrack / Cut / Incomplete) together with the stream as the parser left
it (the error location), mirroring the mutable-reference calling convention
of `Parser::parse_next`.
-/

namespace Winnow

/-- A stream: the remaining bytes plus the static flag of the stream type
reporting whether the stream is a streaming (partial) stream; the flag models
the value of `StreamIsPartial::is_partial_supported()` for the stream type
(`false` for a complete slice, `true` for the `Partial` wrapper). -/
structure Stream where
  input : List Nat
  streaming : Bool
deriving DecidableEq

/-- The error kinds of the core (`ErrorKind`). -/
inductive ErrorKind where
  | Tag
  | Slice
  | Token
  | Verify
  | Alt
  | Permutation
  | Complete
  | Eof
deriving DecidableEq

/-- The three-valued error outcome `ErrMode<E>`; `Incomplete` carries the
count of `Needed::new(n)`. -/
inductive ErrMode (E : Type) where
  | Backtrack (e : E)
  | Cut (e : E)
  | Incomplete (needed : Nat)
deriving DecidableEq

/-- Result of `parse_next` on a stream passed by mutable reference: on
success the advanced stream and the output, on error the stream as the
parser left it (the error location) and the `ErrMode` outcome. -/
inductive PResult (E O : Type) where
  | ok (rest : Stream) (out : O)
  | err (rest : Stream) (mode : ErrMode E)
deriving DecidableEq

/-- A parser is its `parse_next` function. -/
abbrev Parser (E O : Type) := Stream → PResult E O

/-- The `ParseError` operations the core requires of an error type:
`from_error_kind` and `append`. -/
class ParseError (E : Type) where
  from_error_kind : Stream → ErrorKind → E
  append : E → Stream → ErrorKind → E

/-- The minimal position-plus-kind error (`InputError`): `from_error_kind`
records the input and kind, `append` keeps the original error unchanged. -/
abbrev InputError := Stream × ErrorKind

instance : ParseError InputError where
  from_error_kind s k := (s, k)
  append e _ _ := e

/-- Modelled from the spec: the literal tag leaf parser (`tag`, out of scope
of src/).  The stream is compared against the pattern: a full prefix match
succeeds and consumes the pattern length; a run of input that is a proper
prefix of the pattern reports Incomplete with the missing length on a
streaming stream; anything else backtracks with kind Tag at the starting
position. -/
def tag {E : Type} [ParseError E] (lit : List Nat) : Parser E (List Nat) := fun s =>
  if List.isPrefixOf lit s.input then
    PResult.ok ⟨s.input.drop lit.length, s.streaming⟩ lit
  else if s.streaming && List.isPrefixOf s.input lit then
    PResult.err s (ErrMode.Incomplete (lit.length - s.input.length))
  else
    PResult.err s (ErrMode.Backtrack (ParseError.from_error_kind s ErrorKind.Tag))

/-- Modelled from the spec: the fixed-length take leaf parser (`take(n)`,
out of scope of src/).  With at least `n` tokens available it consumes and
yields them; with fewer it reports Incomplete with the missing count on a
streaming stream and otherwise backtracks with kind Slice. -/
def take {E : Type} [ParseError E] (n : Nat) : Parser E (List Nat) := fun s =>
  if n ≤ s.input.length then
    PResult.ok ⟨s.input.drop n, s.streaming⟩ (s.input.take n)
  else if s.streaming then
    PResult.err s (ErrMode.Incomplete (n - s.input.length))
  else
    PResult.err s (ErrMode.Backtrack (ParseError.from_error_kind s ErrorKind.Slice))

/-- Modelled from the spec: the big-endian 16-bit numeric decoder (`be_u16`,
out of scope of src/).  Two bytes are consumed and combined big-endian; with
fewer than two bytes it reports Incomplete with the missing count on a
streaming stream and otherwise backtracks with kind Slice. -/
def be_u16 {E : Type} [ParseError E] : Parser E Nat := fun s =>
  match s.input with
  | b0 :: b1 :: rest => PResult.ok ⟨rest, s.streaming⟩ (b0 * 256 + b1)
  | _ =>
    if s.streaming then
      PResult.err s (ErrMode.Incomplete (2 - s.input.length))
    else
      PResult.err s (ErrMode.Backtrack (ParseError.from_error_kind s ErrorKind.Slice))

/-- Modelled from the spec: the end-of-input leaf parser (`eof`, out of
scope of src/): succeeds with the empty slice exactly when no input
remains, otherwise backtracks with kind Eof at the current position. -/
def eof {E : Type} [ParseError E] : Parser E (List Nat) := fun s =>
  if s.input = [] then
    PResult.ok s []
  else
    PResult.err s (ErrMode.Backtrack (ParseError.from_error_kind s ErrorKind.Eof))

/-- The unit impl of `Parser` for `()`: consumes nothing, yields unit. -/
def unitP {E : Type} : Parser E Unit := fun i => PResult.ok i ()

/-- The tuple impl of `Parser` at arity 1 (from `impl_parser_for_tuple`):
run the single sub-parser, propagating its outcome via the try operator. -/
def tuple1 {E A : Type} (p1 : Parser E A) : Parser E A := fun i =>
  match p1 i with
  | PResult.err s m => PResult.err s m
  | PResult.ok i1 a => PResult.ok i1 a

/-- The tuple impl of `Parser` at arity 2 (from `impl_parser_for_tuple`):
run each sub-parser left to right on the same mutated stream, propagating
the first error outcome via the try operator. -/
def tuple2 {E A B : Type} (p1 : Parser E A) (p2 : Parser E B) : Parser E (A × B) := fun i =>
  match p1 i with
  | PResult.err s m => PResult.err s m
  | PResult.ok i1 a =>
    match p2 i1 with
    | PResult.err s m => PResult.err s m
    | PResult.ok i2 b => PResult.ok i2 (a, b)

/-- The tuple impl of `Parser` at arity 3 (from `impl_parser_for_tuple`):
run each sub-parser left to right on the same mutated stream, propagating
the first error outcome via the try operator. -/
def tuple3 {E A B C : Type} (p1 : Parser E A) (p2 : Parser E B) (p3 : Parser E C) :
    Parser E (A × B × C) := fun i =>
  match p1 i with
  | PResult.err s m => PResult.err s m
  | PResult.ok i1 a =>
    match p2 i1 with
    | PResult.err s m => PResult.err s m
    | PResult.ok i2 b =>
      match p3 i2 with
      | PResult.err s m => PResult.err s m
      | PResult.ok i3 c => PResult.ok i3 (a, b, c)

/-- The tuple sequencing scheme of `impl_parser_for_tuple` at arbitrary
arity over a homogeneous list of sub-parsers: run each left to right on the
same mutated stream, propagating the first error outcome unchanged, and on
success collect the outputs in declaration order. -/
def tupleList {E O : Type} : List (Parser E O) → Parser E (List O)
  | [] => fun s => PResult.ok s []
  | p :: ps => fun s =>
    match p s with
    | PResult.err s1 m => PResult.err s1 m
    | PResult.ok s1 o =>
      match tupleList ps s1 with
      | PResult.err s2 m => PResult.err s2 m
      | PResult.ok s2 os => PResult.ok s2 (o :: os)

/-- Result type of `Parser::parse`: a plain result, with a third value
marking the runs on which the source fails an assertion (the
debug-assert on streaming streams and the two `expect` calls on
`into_inner` of an Incomplete outcome). -/
inductive ParseAll (E O : Type) where
  | panicked
  | ok (out : O)
  | err (e : E)
deriving DecidableEq

/-- `Parser::parse` from the source: assert the stream type is not
streaming, run the parser, extract the plain error from Backtrack or Cut
(an Incomplete outcome fails the `expect`), then require end of input via
`eof` with the same extraction. -/
def parse {E O : Type} [ParseError E] (p : Parser E O) (input : Stream) : ParseAll E O :=
  if input.streaming then ParseAll.panicked
  else
    match p input with
    | PResult.err _ (ErrMode.Backtrack e) => ParseAll.err e
    | PResult.err _ (ErrMode.Cut e) => ParseAll.err e
    | PResult.err _ (ErrMode.Incomplete _) => ParseAll.panicked
    | PResult.ok i1 o =>
      match (eof : Parser E (List Nat)) i1 with
      | PResult.err _ (ErrMode.Backtrack e) => ParseAll.err e
      | PResult.err _ (ErrMode.Cut e) => ParseAll.err e
      | PResult.err _ (ErrMode.Incomplete _) => ParseAll.panicked
      | PResult.ok _ _ => ParseAll.ok o

/-- `Parser::parse_peek` from the source: run `parse_next` on a by-value
copy of the input and return the pair of remaining input and output on
success, or the error outcome verbatim. -/
def parse_peek {E O : Type} (p : Parser E O) (input : Stream) :
    Except (ErrMode E) (Stream × O) :=
  match p input with
  | PResult.ok i o => Except.ok (i, o)
  | PResult.err _ m => Except.error m

/-- `unpeek` from the source: convert a peek-style function (input by
value, returning remaining input and output on success) into a
`parse_next`-style parser.  The function is run on a clone of the input;
only on success is the caller's input replaced by the returned remainder,
and on error the clone is discarded so the caller's input is untouched. -/
def unpeek {E O : Type} (peek : Stream → Except (ErrMode E) (Stream × O)) : Parser E O :=
  fun input =>
    match peek input with
    | Except.ok (i, o) => PResult.ok i o
    | Except.error err => PResult.err input err

/-- Modelled from the spec: the ordered alternation combinator (`alt`, out
of scope of src/), as a loop over the alternatives carrying the latest
Backtrack error.  Success, Cut and Incomplete outcomes are returned
immediately; on Backtrack the input is restored to the starting position
and the next alternative is tried; when the alternatives run out, a context
with the starting position and kind Alt is appended atop the last
Backtrack error. -/
def altGo {E O : Type} [ParseError E] : List (Parser E O) → Stream → Option E → PResult E O
  | [], s, some e => PResult.err s (ErrMode.Backtrack (ParseError.append e s ErrorKind.Alt))
  | [], s, none => PResult.err s (ErrMode.Backtrack (ParseError.from_error_kind s ErrorKind.Alt))
  | p :: ps, s, _acc =>
    match p s with
    | PResult.ok s1 o => PResult.ok s1 o
    | PResult.err s1 (ErrMode.Cut e) => PResult.err s1 (ErrMode.Cut e)
    | PResult.err s1 (ErrMode.Incomplete n) => PResult.err s1 (ErrMode.Incomplete n)
    | PResult.err _ (ErrMode.Backtrack e) => altGo ps s (some e)

/-- Modelled from the spec: `alt` over a tuple of alternatives, modelled as
a list of parsers with a common output type. -/
def altList {E O : Type} [ParseError E] (ps : List (Parser E O)) : Parser E O :=
  fun s => altGo ps s none

/-- A slot of the permutation combinator: a sub-parser paired with its
recorded output once it has matched. -/
abbrev Slot (E O : Type) := Parser E O × Option O

/-- Outcome of one round of the permutation combinator. -/
inductive RoundResult (E O : Type) where
  | success (slots : List (Slot E O)) (s : Stream)
  | cut (s1 : Stream) (e : E)
  | failed (inc : Option Nat) (lastBt : Option E)

/-- Modelled from the spec: one round of the permutation combinator (out of
scope of src/).  At the round's position, the not-yet-matched slots are
tried in declaration order: the first success fills its slot and ends the
round; a Cut is returned; an Incomplete is remembered (the first of the
round) while the remaining slots are still tried; a Backtrack restores the
input and moves on, remembering the last Backtrack error of the round. -/
def permRound {E O : Type} (s : Stream) : List (Slot E O) → RoundResult E O
  | [] => RoundResult.failed none none
  | (p, some o) :: rest =>
    (match permRound s rest with
     | RoundResult.success slots s1 => RoundResult.success ((p, some o) :: slots) s1
     | RoundResult.cut s1 e => RoundResult.cut s1 e
     | RoundResult.failed i b => RoundResult.failed i b)
  | (p, none) :: rest =>
    match p s with
    | PResult.ok s1 o => RoundResult.success ((p, some o) :: rest) s1
    | PResult.err s1 (ErrMode.Cut e) => RoundResult.cut s1 e
    | PResult.err _ (ErrMode.Incomplete n) =>
      (match permRound s rest with
       | RoundResult.success slots s1 => RoundResult.success ((p, none) :: slots) s1
       | RoundResult.cut s1 e => RoundResult.cut s1 e
       | RoundResult.failed _ b => RoundResult.failed (some n) b)
    | PResult.err _ (ErrMode.Backtrack e) =>
      (match permRound s rest with
       | RoundResult.success slots s1 => RoundResult.success ((p, none) :: slots) s1
       | RoundResult.cut s1 e1 => RoundResult.cut s1 e1
       | RoundResult.failed i b => RoundResult.failed i (some (b.getD e)))

/-- The recorded outputs of a slot list, in declaration order, available
exactly when every slot has matched. -/
def slotOuts {E O : Type} : List (Slot E O) → Option (List O)
  | [] => some []
  | (_, some o) :: rest =>
    (match slotOuts rest with
     | some os => some (o :: os)
     | none => none)
  | (_, none) :: _ => none

/-- Modelled from the spec: the round loop of the permutation combinator.
When every slot is filled the outputs are assembled in declaration order;
otherwise a round is run: on success the loop continues at the new
position, a Cut is returned, a remembered Incomplete is returned when the
round made no progress, and otherwise a Backtrack at the round's starting
position wraps the last inner Backtrack with kind Permutation.  The fuel
starts at the slot count and bounds the number of rounds. -/
def permLoop {E O : Type} [ParseError E] (fuel : Nat) (slots : List (Slot E O)) (s : Stream) :
    PResult E (List O) :=
  match slotOuts slots with
  | some os => PResult.ok s os
  | none =>
    match fuel with
    | 0 => PResult.err s (ErrMode.Backtrack (ParseError.from_error_kind s ErrorKind.Permutation))
    | fuel1 + 1 =>
      match permRound s slots with
      | RoundResult.success slots1 s1 => permLoop fuel1 slots1 s1
      | RoundResult.cut s1 e => PResult.err s1 (ErrMode.Cut e)
      | RoundResult.failed (some n) _ => PResult.err s (ErrMode.Incomplete n)
      | RoundResult.failed none (some e) =>
        PResult.err s (ErrMode.Backtrack (ParseError.append e s ErrorKind.Permutation))
      | RoundResult.failed none none =>
        PResult.err s (ErrMode.Backtrack (ParseError.from_error_kind s ErrorKind.Permutation))

/-- Modelled from the spec: the unordered permutation combinator
(`permutation`, out of scope of src/), over a tuple of sub-parsers
modelled as a list with a common output type; each must match exactly
once, in any order, and the outputs are assembled in declaration order. -/
def permutation {E O : Type} [ParseError E] (ps : List (Parser E O)) : Parser E (List O) :=
  fun s => permLoop ps.length (ps.map (fun p => (p, none))) s

/-- A result is a Backtrack outcome. -/
def isBacktrack {E O : Type} : PResult E O → Bool
  | PResult.err _ (ErrMode.Backtrack _) => true
  | _ => false

/-- A parser never reports Incomplete on a complete stream, and success on
a complete stream leaves a complete stream. -/
def CompleteSafe {E O : Type} (p : Parser E O) : Prop :=
  ∀ s : Stream, s.streaming = false →
    (∀ s1 n, p s ≠ PResult.err s1 (ErrMode.Incomplete n)) ∧
    (∀ s1 o, p s = PResult.ok s1 o → s1.streaming = false)

/-- An optional recorded output that the parser could actually produce:
whenever it holds a value, some run of the parser yields exactly that
value. -/
def Produced {E O : Type} (p : Parser E O) (mo : Option O) : Prop :=
  ∀ o, mo = some o → ∃ s0 s1, p s0 = PResult.ok s1 o

/-- The slot list of the permutation loop lines up positionally with the
declared parser list: each slot holds its own declared parser, and its
recorded output, if any, was produced by that very parser. -/
def SlotInv {E O : Type} (slots : List (Slot E O)) (ps : List (Parser E O)) : Prop :=
  List.Forall₂ (fun slot p => slot.1 = p ∧ Produced p slot.2) slots ps

theorem tag_err_rest {E : Type} [ParseError E] (lit : List Nat) (s s1 : Stream) (m : ErrMode E)
    (h : tag lit s = PResult.err s1 m) : s1 = s := by
  simp only [tag] at h
  split at h
  · exact PResult.noConfusion h
  · split at h
    · injection h with h1 _
      exact h1.symm
    · injection h with h1 _
      exact h1.symm

theorem take_err_rest {E : Type} [ParseError E] (n : Nat) (s s1 : Stream) (m : ErrMode E)
    (h : take n s = PResult.err s1 m) : s1 = s := by
  simp only [take] at h
  split at h
  · exact PResult.noConfusion h
  · split at h
    · injection h with h1 _
      exact h1.symm
    · injection h with h1 _
      exact h1.symm

theorem be_u16_err_rest {E : Type} [ParseError E] (s s1 : Stream) (m : ErrMode E)
    (h : be_u16 (E := E) s = PResult.err s1 m) : s1 = s := by
  simp only [be_u16] at h
  split at h
  · exact PResult.noConfusion h
  · split at h
    · injection h with h1 _
      exact h1.symm
    · injection h with h1 _
      exact h1.symm

theorem altGo_all_backtrack {E O : Type} [ParseError E]
    (ps : List (Parser E O)) (plast : Parser E O) (s s1 : Stream) (e : E)
    (hps : ∀ q ∈ ps, isBacktrack (q s) = true)
    (hl : plast s = PResult.err s1 (ErrMode.Backtrack e)) :
    ∀ acc : Option E,
      altGo (ps ++ [plast]) s acc
        = PResult.err s (ErrMode.Backtrack (ParseError.append e s ErrorKind.Alt)) := by
  induction ps with
  | nil =>
    intro acc
    simp only [List.nil_append, altGo, hl]
  | cons p ps ih =>
    intro acc
    have hp : isBacktrack (p s) = true := hps p (List.mem_cons_self p ps)
    cases hq : p s with
    | ok s2 o =>
      rw [hq] at hp
      simp [isBacktrack] at hp
    | err s2 m =>
      cases m with
      | Backtrack e2 =>
        rw [List.cons_append]
        simp only [altGo, hq]
        exact ih (fun q hmem => hps q (List.mem_cons_of_mem p hmem)) (some e2)
      | Cut e2 =>
        rw [hq] at hp
        simp [isBacktrack] at hp
      | Incomplete n =>
        rw [hq] at hp
        simp [isBacktrack] at hp

theorem altGo_incomplete {E O : Type} [ParseError E]
    (ps qs : List (Parser E O)) (p : Parser E O) (s s1 : Stream) (n : Nat)
    (hps : ∀ q ∈ ps, isBacktrack (q s) = true)
    (hp : p s = PResult.err s1 (ErrMode.Incomplete n)) :
    ∀ acc : Option E,
      altGo (ps ++ p :: qs) s acc = PResult.err s1 (ErrMode.Incomplete n) := by
  induction ps with
  | nil =>
    intro acc
    simp only [List.nil_append, altGo, hp]
  | cons q0 ps ih =>
    intro acc
    have hq0 : isBacktrack (q0 s) = true := hps q0 (List.mem_cons_self q0 ps)
    cases hq : q0 s with
    | ok s2 o =>
      rw [hq] at hq0
      simp [isBacktrack] at hq0
    | err s2 m =>
      cases m with
      | Backtrack e2 =>
        rw [List.cons_append]
        simp only [altGo, hq]
        exact ih (fun q hmem => hps q (List.mem_cons_of_mem q0 hmem)) (some e2)
      | Cut e2 =>
        rw [hq] at hq0
        simp [isBacktrack] at hq0
      | Incomplete n2 =>
        rw [hq] at hq0
        simp [isBacktrack] at hq0

theorem tag_completeSafe {E : Type} [ParseError E] (lit : List Nat) :
    CompleteSafe (tag (E := E) lit) := by
  intro s hs
  constructor
  · intro s1 n h
    simp only [tag, hs, Bool.false_and] at h
    split at h
    · exact PResult.noConfusion h
    · split at h
      · simp at *
      · injection h with _ h2
        exact ErrMode.noConfusion h2
  · intro s1 o h
    simp only [tag, hs, Bool.false_and] at h
    split at h
    · injection h with h1 _
      rw [← h1]
    · split at h
      · simp at *
      · exact PResult.noConfusion h

theorem take_completeSafe {E : Type} [ParseError E] (n : Nat) :
    CompleteSafe (take (E := E) n) := by
  intro s hs
  constructor
  · intro s1 k h
    simp only [take, hs] at h
    split at h
    · exact PResult.noConfusion h
    · split at h
      · simp at *
      · injection h with _ h2
        exact ErrMode.noConfusion h2
  · intro s1 o h
    simp only [take, hs] at h
    split at h
    · injection h with h1 _
      rw [← h1]
    · split at h
      · simp at *
      · exact PResult.noConfusion h

theorem be_u16_completeSafe {E : Type} [ParseError E] :
    CompleteSafe (be_u16 (E := E)) := by
  intro s hs
  constructor
  · intro s1 k h
    simp only [be_u16, hs] at h
    split at h
    · exact PResult.noConfusion h
    · split at h
      · simp at *
      · injection h with _ h2
        exact ErrMode.noConfusion h2
  · intro s1 o h
    simp only [be_u16, hs] at h
    split at h
    · injection h with h1 _
      rw [← h1]
    · split at h
      · simp at *
      · exact PResult.noConfusion h

theorem eof_completeSafe {E : Type} [ParseError E] :
    CompleteSafe (eof (E := E)) := by
  intro s hs
  constructor
  · intro s1 k h
    simp only [eof] at h
    split at h
    · exact PResult.noConfusion h
    · injection h with _ h2
      exact ErrMode.noConfusion h2
  · intro s1 o h
    simp only [eof] at h
    split at h
    · injection h with h1 _
      rw [← h1]
      exact hs
    · exact PResult.noConfusion h

theorem tuple3_completeSafe {E A B C : Type}
    (p1 : Parser E A) (p2 : Parser E B) (p3 : Parser E C)
    (h1 : CompleteSafe p1) (h2 : CompleteSafe p2) (h3 : CompleteSafe p3) :
    CompleteSafe (tuple3 p1 p2 p3) := by
  intro s hs
  constructor
  · intro s1 n h
    simp only [tuple3] at h
    cases hq1 : p1 s with
    | err st m =>
      simp only [hq1] at h
      injection h with ha hb
      exact (h1 s hs).1 s1 n (by rw [hq1, ha, hb])
    | ok st a =>
      have hst : st.streaming = false := (h1 s hs).2 st a hq1
      simp only [hq1] at h
      cases hq2 : p2 st with
      | err st2 m =>
        simp only [hq2] at h
        injection h with ha hb
        exact (h2 st hst).1 s1 n (by rw [hq2, ha, hb])
      | ok st2 b =>
        have hst2 : st2.streaming = false := (h2 st hst).2 st2 b hq2
        simp only [hq2] at h
        cases hq3 : p3 st2 with
        | err st3 m =>
          simp only [hq3] at h
          injection h with ha hb
          exact (h3 st2 hst2).1 s1 n (by rw [hq3, ha, hb])
        | ok st3 c =>
          simp only [hq3] at h
          exact PResult.noConfusion h
  · intro s1 o h
    simp only [tuple3] at h
    cases hq1 : p1 s with
    | err st m =>
      simp only [hq1] at h
      exact PResult.noConfusion h
    | ok st a =>
      have hst : st.streaming = false := (h1 s hs).2 st a hq1
      simp only [hq1] at h
      cases hq2 : p2 st with
      | err st2 m =>
        simp only [hq2] at h
        exact PResult.noConfusion h
      | ok st2 b =>
        have hst2 : st2.streaming = false := (h2 st hst).2 st2 b hq2
        simp only [hq2] at h
        cases hq3 : p3 st2 with
        | err st3 m =>
          simp only [hq3] at h
          exact PResult.noConfusion h
        | ok st3 c =>
          have hst3 : st3.streaming = false := (h3 st2 hst2).2 st3 c hq3
          simp only [hq3] at h
          injection h with ha _
          rw [← ha]
          exact hst3

theorem tupleList_completeSafe {E O : Type} (ps : List (Parser E O))
    (hps : ∀ p ∈ ps, CompleteSafe p) : CompleteSafe (tupleList ps) := by
  induction ps with
  | nil =>
    intro s hs
    constructor
    · intro s1 n h
      exact PResult.noConfusion h
    · intro s1 o h
      injection h with h1 _
      rw [← h1]
      exact hs
  | cons p ps ih =>
    intro s hs
    have hp : CompleteSafe p := hps p (List.mem_cons_self p ps)
    have ihs : CompleteSafe (tupleList ps) :=
      ih (fun q hmem => hps q (List.mem_cons_of_mem p hmem))
    constructor
    · intro s1 n h
      simp only [tupleList] at h
      cases hq : p s with
      | err st m =>
        simp only [hq] at h
        injection h with ha hb
        exact (hp s hs).1 s1 n (by rw [hq, ha, hb])
      | ok st o1 =>
        have hst : st.streaming = false := (hp s hs).2 st o1 hq
        simp only [hq] at h
        cases hq2 : tupleList ps st with
        | err st2 m =>
          simp only [hq2] at h
          injection h with ha hb
          exact (ihs st hst).1 s1 n (by rw [hq2, ha, hb])
        | ok st2 os =>
          simp only [hq2] at h
          exact PResult.noConfusion h
    · intro s1 o h
      simp only [tupleList] at h
      cases hq : p s with
      | err st m =>
        simp only [hq] at h
        exact PResult.noConfusion h
      | ok st o1 =>
        have hst : st.streaming = false := (hp s hs).2 st o1 hq
        simp only [hq] at h
        cases hq2 : tupleList ps st with
        | err st2 m =>
          simp only [hq2] at h
          exact PResult.noConfusion h
        | ok st2 os =>
          have hst2 : st2.streaming = false := (ihs st hst).2 st2 os hq2
          simp only [hq2] at h
          injection h with ha _
          rw [← ha]
          exact hst2

theorem altGo_completeSafe {E O : Type} [ParseError E] (ps : List (Parser E O))
    (hps : ∀ p ∈ ps, CompleteSafe p) :
    ∀ (s : Stream) (acc : Option E), s.streaming = false →
      (∀ s1 n, altGo ps s acc ≠ PResult.err s1 (ErrMode.Incomplete n)) ∧
      (∀ s1 o, altGo ps s acc = PResult.ok s1 o → s1.streaming = false) := by
  induction ps with
  | nil =>
    intro s acc hs
    constructor
    · intro s1 n h
      cases acc with
      | some e =>
        simp only [altGo] at h
        injection h with _ h2
        exact ErrMode.noConfusion h2
      | none =>
        simp only [altGo] at h
        injection h with _ h2
        exact ErrMode.noConfusion h2
    · intro s1 o h
      cases acc with
      | some e => exact PResult.noConfusion h
      | none => exact PResult.noConfusion h
  | cons p ps ih =>
    intro s acc hs
    have hp : CompleteSafe p := hps p (List.mem_cons_self p ps)
    have ihs := ih (fun q hmem => hps q (List.mem_cons_of_mem p hmem))
    constructor
    · intro s1 n h
      simp only [altGo] at h
      cases hq : p s with
      | ok st o =>
        simp only [hq] at h
        exact PResult.noConfusion h
      | err st m =>
        cases m with
        | Backtrack e =>
          simp only [hq] at h
          exact (ihs s (some e) hs).1 s1 n h
        | Cut e =>
          simp only [hq] at h
          injection h with _ h2
          exact ErrMode.noConfusion h2
        | Incomplete n2 =>
          exact (hp s hs).1 st n2 hq
    · intro s1 o h
      simp only [altGo] at h
      cases hq : p s with
      | ok st o1 =>
        simp only [hq] at h
        injection h with ha hb
        exact ha ▸ (hp s hs).2 st o1 hq
      | err st m =>
        cases m with
        | Backtrack e =>
          simp only [hq] at h
          exact (ihs s (some e) hs).2 s1 o h
        | Cut e =>
          simp only [hq] at h
          exact PResult.noConfusion h
        | Incomplete n2 =>
          simp only [hq] at h
          exact PResult.noConfusion h

theorem altList_completeSafe {E O : Type} [ParseError E] (ps : List (Parser E O))
    (hps : ∀ p ∈ ps, CompleteSafe p) : CompleteSafe (altList ps) := by
  intro s hs
  exact altGo_completeSafe ps hps s none hs

theorem parse_ne_panicked {E O : Type} [ParseError E] (p : Parser E O) (input : Stream)
    (hp : CompleteSafe p) (hs : input.streaming = false) :
    parse p input ≠ ParseAll.panicked := by
  intro h
  simp only [parse, hs, Bool.false_eq_true, if_false] at h
  cases hq : p input with
  | ok i1 o =>
    have hi1 : i1.streaming = false := (hp input hs).2 i1 o hq
    simp only [hq] at h
    by_cases he : i1.input = []
    · simp [eof, he] at h
    · simp [eof, he] at h
  | err st m =>
    cases m with
    | Backtrack e => simp [hq] at h
    | Cut e => simp [hq] at h
    | Incomplete n => exact (hp input hs).1 st n hq

theorem permRound_success_length {E O : Type} (s : Stream) (slots : List (Slot E O)) :
    ∀ (slots1 : List (Slot E O)) (s1 : Stream),
      permRound s slots = RoundResult.success slots1 s1 → slots1.length = slots.length := by
  induction slots with
  | nil =>
    intro slots1 s1 h
    simp only [permRound] at h
    exact RoundResult.noConfusion h
  | cons slot rest ih =>
    intro slots1 s1 h
    obtain ⟨p, mo⟩ := slot
    cases mo with
    | some o =>
      simp only [permRound] at h
      cases hr : permRound s rest with
      | success slots2 s2 =>
        simp only [hr] at h
        injection h with ha _
        rw [← ha, List.length_cons, List.length_cons, ih slots2 s2 hr]
      | cut s2 e =>
        simp only [hr] at h
        exact RoundResult.noConfusion h
      | failed i b =>
        simp only [hr] at h
        exact RoundResult.noConfusion h
    | none =>
      simp only [permRound] at h
      cases hq : p s with
      | ok s2 o =>
        simp only [hq] at h
        injection h with ha _
        rw [← ha, List.length_cons, List.length_cons]
      | err s2 m =>
        cases m with
        | Backtrack e =>
          simp only [hq] at h
          cases hr : permRound s rest with
          | success slots2 s2 =>
            simp only [hr] at h
            injection h with ha _
            rw [← ha, List.length_cons, List.length_cons, ih slots2 s2 hr]
          | cut s2 e1 =>
            simp only [hr] at h
            exact RoundResult.noConfusion h
          | failed i b =>
            simp only [hr] at h
            exact RoundResult.noConfusion h
        | Cut e =>
          simp only [hq] at h
          exact RoundResult.noConfusion h
        | Incomplete n =>
          simp only [hq] at h
          cases hr : permRound s rest with
          | success slots2 s2 =>
            simp only [hr] at h
            injection h with ha _
            rw [← ha, List.length_cons, List.length_cons, ih slots2 s2 hr]
          | cut s2 e1 =>
            simp only [hr] at h
            exact RoundResult.noConfusion h
          | failed i b =>
            simp only [hr] at h
            exact RoundResult.noConfusion h

theorem slotOuts_length {E O : Type} (slots : List (Slot E O)) :
    ∀ os : List O, slotOuts slots = some os → os.length = slots.length := by
  induction slots with
  | nil =>
    intro os h
    simp only [slotOuts] at h
    injection h with h1
    rw [← h1]
    rfl
  | cons slot rest ih =>
    intro os h
    obtain ⟨p, mo⟩ := slot
    cases mo with
    | some o =>
      simp only [slotOuts] at h
      cases hr : slotOuts rest with
      | some os2 =>
        simp only [hr] at h
        injection h with h1
        rw [← h1, List.length_cons, List.length_cons, ih os2 hr]
      | none =>
        simp only [hr] at h
        exact Option.noConfusion h
    | none =>
      simp only [slotOuts] at h
      exact Option.noConfusion h

theorem permLoop_ok_length {E O : Type} [ParseError E] (fuel : Nat) :
    ∀ (slots : List (Slot E O)) (s s1 : Stream) (os : List O),
      permLoop fuel slots s = PResult.ok s1 os → os.length = slots.length := by
  induction fuel with
  | zero =>
    intro slots s s1 os h
    simp only [permLoop] at h
    cases hso : slotOuts slots with
    | some os2 =>
      simp only [hso] at h
      injection h with _ hb
      rw [← hb]
      exact slotOuts_length slots os2 hso
    | none =>
      simp only [hso] at h
      exact PResult.noConfusion h
  | succ fuel ih =>
    intro slots s s1 os h
    simp only [permLoop] at h
    cases hso : slotOuts slots with
    | some os2 =>
      simp only [hso] at h
      injection h with _ hb
      rw [← hb]
      exact slotOuts_length slots os2 hso
    | none =>
      simp only [hso] at h
      cases hr : permRound s slots with
      | success slots2 s2 =>
        simp only [hr] at h
        rw [ih slots2 s2 s1 os h]
        exact permRound_success_length s slots slots2 s2 hr
      | cut s2 e =>
        simp only [hr] at h
        exact PResult.noConfusion h
      | failed i b =>
        cases i with
        | some n =>
          simp only [hr] at h
          exact PResult.noConfusion h
        | none =>
          cases b with
          | some e =>
            simp only [hr] at h
            exact PResult.noConfusion h
          | none =>
            simp only [hr] at h
            exact PResult.noConfusion h

theorem slotOuts_append_none {E O : Type} (pre post : List (Slot E O)) (p : Parser E O) :
    slotOuts (pre ++ (p, none) :: post) = none := by
  induction pre with
  | nil => simp [slotOuts]
  | cons slot rest ih =>
    obtain ⟨q, mo⟩ := slot
    cases mo with
    | some o => simp only [List.cons_append, slotOuts, List.append_eq, ih]
    | none => simp only [List.cons_append, slotOuts]

theorem permRound_failed {E O : Type} (s : Stream) (slots : List (Slot E O))
    (hnp : ∀ q ∈ slots, q.2.isSome = true ∨ isBacktrack (q.1 s) = true) :
    ∃ i b, permRound s slots = RoundResult.failed i b := by
  induction slots with
  | nil => exact ⟨none, none, rfl⟩
  | cons slot rest ih =>
    obtain ⟨irest, brest, hr⟩ := ih (fun q hq => hnp q (List.mem_cons_of_mem slot hq))
    obtain ⟨p, mo⟩ := slot
    cases mo with
    | some o =>
      refine ⟨irest, brest, ?_⟩
      simp only [permRound, hr]
    | none =>
      have hslot := hnp (p, none) (List.mem_cons_self _ _)
      cases hslot with
      | inl h => simp at h
      | inr hbt =>
        have hbt2 : isBacktrack (p s) = true := hbt
        cases hq : p s with
        | ok s2 o =>
          rw [hq] at hbt2
          simp [isBacktrack] at hbt2
        | err s2 m =>
          cases m with
          | Backtrack e =>
            refine ⟨irest, some (brest.getD e), ?_⟩
            simp only [permRound, hq, hr]
          | Cut e =>
            rw [hq] at hbt2
            simp [isBacktrack] at hbt2
          | Incomplete n =>
            rw [hq] at hbt2
            simp [isBacktrack] at hbt2

theorem permRound_incomplete {E O : Type} (s : Stream) (pre post : List (Slot E O))
    (p : Parser E O) (s1 : Stream) (n : Nat)
    (hpre : ∀ q ∈ pre, q.2.isSome = true ∨ isBacktrack (q.1 s) = true)
    (hp : p s = PResult.err s1 (ErrMode.Incomplete n))
    (hpost : ∀ q ∈ post, q.2.isSome = true ∨ isBacktrack (q.1 s) = true) :
    ∃ b, permRound s (pre ++ (p, none) :: post) = RoundResult.failed (some n) b := by
  induction pre with
  | nil =>
    obtain ⟨ipost, bpost, hr⟩ := permRound_failed s post hpost
    refine ⟨bpost, ?_⟩
    simp only [List.nil_append, permRound, hp, hr]
  | cons slot rest ih =>
    obtain ⟨b0, hrec⟩ := ih (fun q hq => hpre q (List.mem_cons_of_mem slot hq))
    obtain ⟨q0, mo⟩ := slot
    cases mo with
    | some o =>
      refine ⟨b0, ?_⟩
      rw [List.cons_append]
      simp only [permRound, hrec]
    | none =>
      have hslot := hpre (q0, none) (List.mem_cons_self _ _)
      cases hslot with
      | inl h => simp at h
      | inr hbt =>
        have hbt2 : isBacktrack (q0 s) = true := hbt
        cases hq : q0 s with
        | ok s2 o =>
          rw [hq] at hbt2
          simp [isBacktrack] at hbt2
        | err s2 m =>
          cases m with
          | Backtrack e =>
            refine ⟨some (b0.getD e), ?_⟩
            rw [List.cons_append]
            simp only [permRound, hq, hrec]
          | Cut e =>
            rw [hq] at hbt2
            simp [isBacktrack] at hbt2
          | Incomplete n2 =>
            rw [hq] at hbt2
            simp [isBacktrack] at hbt2

theorem permLoop_incomplete {E O : Type} [ParseError E] (s : Stream)
    (pre post : List (Slot E O)) (p : Parser E O) (s1 : Stream) (n fuel : Nat)
    (hpre : ∀ q ∈ pre, q.2.isSome = true ∨ isBacktrack (q.1 s) = true)
    (hp : p s = PResult.err s1 (ErrMode.Incomplete n))
    (hpost : ∀ q ∈ post, q.2.isSome = true ∨ isBacktrack (q.1 s) = true) :
    permLoop (fuel + 1) (pre ++ (p, none) :: post) s = PResult.err s (ErrMode.Incomplete n) := by
  obtain ⟨b, hr⟩ := permRound_incomplete s pre post p s1 n hpre hp hpost
  simp only [permLoop, slotOuts_append_none, hr]

theorem slotInv_init {E O : Type} (ps : List (Parser E O)) :
    SlotInv (ps.map fun p => (p, none)) ps := by
  induction ps with
  | nil => exact List.Forall₂.nil
  | cons p ps ih =>
    refine List.Forall₂.cons ⟨rfl, ?_⟩ ih
    intro o h
    exact Option.noConfusion h

theorem permRound_slotInv {E O : Type} (s : Stream) (slots : List (Slot E O)) :
    ∀ (ps : List (Parser E O)) (slots1 : List (Slot E O)) (s1 : Stream),
      permRound s slots = RoundResult.success slots1 s1 → SlotInv slots ps →
      SlotInv slots1 ps := by
  induction slots with
  | nil =>
    intro ps slots1 s1 h _
    simp only [permRound] at h
    exact RoundResult.noConfusion h
  | cons slot rest ih =>
    intro ps slots1 s1 h hinv
    obtain ⟨q, mo⟩ := slot
    cases mo with
    | some o =>
      cases hinv with
      | cons hrel hrest =>
        simp only [permRound] at h
        cases hr : permRound s rest with
        | success slots2 s2 =>
          simp only [hr] at h
          injection h with ha _
          rw [← ha]
          exact List.Forall₂.cons hrel (ih _ slots2 s2 hr hrest)
        | cut s2 e =>
          simp only [hr] at h
          exact RoundResult.noConfusion h
        | failed i b =>
          simp only [hr] at h
          exact RoundResult.noConfusion h
    | none =>
      cases hinv with
      | cons hrel hrest =>
        simp only [permRound] at h
        cases hq : q s with
        | ok s2 o =>
          simp only [hq] at h
          injection h with ha _
          rw [← ha]
          refine List.Forall₂.cons ⟨hrel.1, ?_⟩ hrest
          intro o1 ho1
          injection ho1 with ho2
          exact ⟨s, s2, by rw [← hrel.1, ← ho2]; exact hq⟩
        | err s2 m =>
          cases m with
          | Backtrack e =>
            simp only [hq] at h
            cases hr : permRound s rest with
            | success slots2 s2 =>
              simp only [hr] at h
              injection h with ha _
              rw [← ha]
              exact List.Forall₂.cons hrel (ih _ slots2 s2 hr hrest)
            | cut s2 e1 =>
              simp only [hr] at h
              exact RoundResult.noConfusion h
            | failed i b =>
              simp only [hr] at h
              exact RoundResult.noConfusion h
          | Cut e =>
            simp only [hq] at h
            exact RoundResult.noConfusion h
          | Incomplete n =>
            simp only [hq] at h
            cases hr : permRound s rest with
            | success slots2 s2 =>
              simp only [hr] at h
              injection h with ha _
              rw [← ha]
              exact List.Forall₂.cons hrel (ih _ slots2 s2 hr hrest)
            | cut s2 e1 =>
              simp only [hr] at h
              exact RoundResult.noConfusion h
            | failed i b =>
              simp only [hr] at h
              exact RoundResult.noConfusion h

theorem slotOuts_slotInv {E O : Type} (slots : List (Slot E O)) :
    ∀ (ps : List (Parser E O)) (os : List O),
      slotOuts slots = some os → SlotInv slots ps →
      List.Forall₂ (fun (o : O) (p : Parser E O) =>
        ∃ s0 s1, p s0 = PResult.ok s1 o) os ps := by
  induction slots with
  | nil =>
    intro ps os h hinv
    cases hinv
    simp only [slotOuts] at h
    injection h with h1
    rw [← h1]
    exact List.Forall₂.nil
  | cons slot rest ih =>
    intro ps os h hinv
    obtain ⟨q, mo⟩ := slot
    cases mo with
    | none =>
      simp only [slotOuts] at h
      exact Option.noConfusion h
    | some o =>
      cases hinv with
      | cons hrel hrest =>
        simp only [slotOuts] at h
        cases hr : slotOuts rest with
        | none =>
          simp only [hr] at h
          exact Option.noConfusion h
        | some os2 =>
          simp only [hr] at h
          injection h with h1
          rw [← h1]
          exact List.Forall₂.cons (hrel.2 o rfl) (ih _ os2 hr hrest)

theorem permLoop_ok_forall2 {E O : Type} [ParseError E] (fuel : Nat) :
    ∀ (slots : List (Slot E O)) (ps : List (Parser E O)) (s rest : Stream) (os : List O),
      permLoop fuel slots s = PResult.ok rest os → SlotInv slots ps →
      List.Forall₂ (fun (o : O) (p : Parser E O) =>
        ∃ s0 s1, p s0 = PResult.ok s1 o) os ps := by
  induction fuel with
  | zero =>
    intro slots ps s rest os h hinv
    simp only [permLoop] at h
    cases hso : slotOuts slots with
    | some os2 =>
      simp only [hso] at h
      injection h with _ hb
      rw [← hb]
      exact slotOuts_slotInv slots ps os2 hso hinv
    | none =>
      simp only [hso] at h
      exact PResult.noConfusion h
  | succ fuel ih =>
    intro slots ps s rest os h hinv
    simp only [permLoop] at h
    cases hso : slotOuts slots with
    | some os2 =>
      simp only [hso] at h
      injection h with _ hb
      rw [← hb]
      exact slotOuts_slotInv slots ps os2 hso hinv
    | none =>
      simp only [hso] at h
      cases hr : permRound s slots with
      | success slots2 s2 =>
        simp only [hr] at h
        exact ih slots2 ps s2 rest os h (permRound_slotInv s slots ps slots2 s2 hr hinv)
      | cut s2 e =>
        simp only [hr] at h
        exact PResult.noConfusion h
      | failed i b =>
        cases i with
        | some n =>
          simp only [hr] at h
          exact PResult.noConfusion h
        | none =>
          cases b with
          | some e =>
            simp only [hr] at h
            exact PResult.noConfusion h
          | none =>
            simp only [hr] at h
            exact PResult.noConfusion h

/-- C1: a tuple of parsers is itself a parser running the sub-parsers left
to right on the same mutable input; on success it yields the outputs in
declaration order and the first failing sub-parser aborts the sequence
with its outcome returned unchanged — both when the head fails and when a
later sub-parser fails after a successful prefix, the error propagating
unchanged through that prefix (stated for the uniform sequencing scheme at
every arity, and for the arity-3 instance with the S4 scenarios:
`(be_u16, take(3), tag("fg"))` on `"abcdefgh"` yields rest `"h"` and
output `(0x6162, "cde", "fg")`; on `"abcd"` Incomplete(1); on `"abcde"`
Incomplete(2); on `"abcdejk"` Backtrack kind Tag at `"jk"`). -/
theorem C1_tuple_sequencing :
    (∀ (E O : Type) (p : Parser E O) (ps : List (Parser E O)) (s s1 : Stream) (m : ErrMode E),
      p s = PResult.err s1 m → tupleList (p :: ps) s = PResult.err s1 m) ∧
    (∀ (E O : Type) (p : Parser E O) (ps : List (Parser E O)) (s s1 s2 : Stream)
        (o : O) (m : ErrMode E),
      p s = PResult.ok s1 o → tupleList ps s1 = PResult.err s2 m →
      tupleList (p :: ps) s = PResult.err s2 m) ∧
    (∀ (E O : Type) (p : Parser E O) (ps : List (Parser E O)) (s s1 s2 : Stream)
        (o : O) (os : List O),
      p s = PResult.ok s1 o → tupleList ps s1 = PResult.ok s2 os →
      tupleList (p :: ps) s = PResult.ok s2 (o :: os)) ∧
    tuple3 (be_u16 (E := InputError)) (take 3) (tag [102, 103])
        ⟨[97, 98, 99, 100, 101, 102, 103, 104], true⟩
      = PResult.ok ⟨[104], true⟩ (24930, [99, 100, 101], [102, 103]) ∧
    tuple3 (be_u16 (E := InputError)) (take 3) (tag [102, 103]) ⟨[97, 98, 99, 100], true⟩
      = PResult.err ⟨[99, 100], true⟩ (ErrMode.Incomplete 1) ∧
    tuple3 (be_u16 (E := InputError)) (take 3) (tag [102, 103]) ⟨[97, 98, 99, 100, 101], true⟩
      = PResult.err ⟨[], true⟩ (ErrMode.Incomplete 2) ∧
    tuple3 (be_u16 (E := InputError)) (take 3) (tag [102, 103])
        ⟨[97, 98, 99, 100, 101, 106, 107], true⟩
      = PResult.err ⟨[106, 107], true⟩
          (ErrMode.Backtrack (⟨[106, 107], true⟩, ErrorKind.Tag)) := by
  refine ⟨?_, ?_, ?_, by decide, by decide, by decide, by decide⟩
  · intro E O p ps s s1 m h
    simp only [tupleList, h]
  · intro E O p ps s s1 s2 o m h1 h2
    simp only [tupleList, h1, h2]
  · intro E O p ps s s1 s2 o os h1 h2
    simp only [tupleList, h1, h2]

/-- C1 witness: the tail-failure conjunct applied to a concrete sequence
whose second element fails after the first consumed input. -/
theorem C1_witness :
    tupleList [tag (E := InputError) [97], tag [120]] ⟨[97, 98], false⟩
      = PResult.err ⟨[98], false⟩
          (ErrMode.Backtrack (⟨[98], false⟩, ErrorKind.Tag)) :=
  C1_tuple_sequencing.2.1 InputError (List Nat) (tag [97]) [tag [120]] ⟨[97, 98], false⟩
    ⟨[98], false⟩ ⟨[98], false⟩ [97]
    (ErrMode.Backtrack (⟨[98], false⟩, ErrorKind.Tag)) (by decide) (by decide)

/-- C2 counterexample: the tuple `(be_u16, take(3), tag("fg"))` on
`"abcdejk"` returns Backtrack, yet the cursor after the call is at `"jk"`,
not at the pre-call position `"abcdejk"`: earlier elements consumed input
and it is not restored. -/
theorem C2_tuple_backtrack_consumes :
    tuple3 (be_u16 (E := InputError)) (take 3) (tag [102, 103])
        ⟨[97, 98, 99, 100, 101, 106, 107], true⟩
      = PResult.err ⟨[106, 107], true⟩
          (ErrMode.Backtrack (⟨[106, 107], true⟩, ErrorKind.Tag)) ∧
    (⟨[106, 107], true⟩ : Stream) ≠ ⟨[97, 98, 99, 100, 101, 106, 107], true⟩ := by
  decide

/-- C2 amended: leaf parsers (tag, take, be_u16) leave the cursor exactly
at the pre-call position on any error outcome, and alt reports its
all-backtracked Backtrack with the cursor restored to the starting
position; but a composite parser's Backtrack in general leaves the cursor
at the error location, so callers that want to resume at the pre-call
position must snapshot before calling, as alt does. -/
theorem C2_backtrack_cursor (E : Type) [ParseError E] :
    (∀ (lit : List Nat) (s s1 : Stream) (m : ErrMode E),
      tag lit s = PResult.err s1 m → s1 = s) ∧
    (∀ (n : Nat) (s s1 : Stream) (m : ErrMode E),
      take n s = PResult.err s1 m → s1 = s) ∧
    (∀ (s s1 : Stream) (m : ErrMode E),
      be_u16 (E := E) s = PResult.err s1 m → s1 = s) ∧
    (∀ (O : Type) (ps : List (Parser E O)) (plast : Parser E O) (s s1 : Stream) (e : E),
      (∀ q ∈ ps, isBacktrack (q s) = true) →
      plast s = PResult.err s1 (ErrMode.Backtrack e) →
      altList (ps ++ [plast]) s
        = PResult.err s (ErrMode.Backtrack (ParseError.append e s ErrorKind.Alt))) :=
  ⟨tag_err_rest, take_err_rest, be_u16_err_rest,
   fun _O ps plast s s1 e hps hl => altGo_all_backtrack ps plast s s1 e hps hl none⟩

/-- C2 witness for the amended claim: `alt((tag("a"),))` on input `"bc"`
backtracks with the cursor restored to the start. -/
theorem C2_witness :
    altList [tag (E := InputError) [97]] ⟨[98, 99], true⟩
      = PResult.err ⟨[98, 99], true⟩
          (ErrMode.Backtrack (⟨[98, 99], true⟩, ErrorKind.Tag)) :=
  (C2_backtrack_cursor InputError).2.2.2 (List Nat) [] (tag [97]) ⟨[98, 99], true⟩
    ⟨[98, 99], true⟩ (⟨[98, 99], true⟩, ErrorKind.Tag) (by simp) (by decide)

/-- C3: on a complete stream, `Parser::parse` succeeds with output `o` iff
`parse_next` succeeds with `o` and the subsequent end-of-input check
succeeds (all input consumed); on a Backtrack or Cut outcome of
`parse_next` it returns the plain inner error extracted from the outcome;
when `parse_next` succeeds but input is left over, it returns the plain
inner error of the end-of-input check's Backtrack (kind Eof at the
leftover position); on a stream whose type is partial it fails the
debug-assert. -/
theorem C3_parse_all (E O : Type) [ParseError E] :
    (∀ (p : Parser E O) (input : Stream) (o : O), input.streaming = false →
      (parse p input = ParseAll.ok o ↔
        ∃ i1 : Stream, p input = PResult.ok i1 o ∧ i1.input = [])) ∧
    (∀ (p : Parser E O) (input s1 : Stream) (e : E), input.streaming = false →
      (p input = PResult.err s1 (ErrMode.Backtrack e) ∨
        p input = PResult.err s1 (ErrMode.Cut e)) →
      parse p input = ParseAll.err e) ∧
    (∀ (p : Parser E O) (input i1 : Stream) (o : O), input.streaming = false →
      p input = PResult.ok i1 o → i1.input ≠ [] →
      parse p input = ParseAll.err (ParseError.from_error_kind i1 ErrorKind.Eof)) ∧
    (∀ (p : Parser E O) (input : Stream), input.streaming = true →
      parse p input = ParseAll.panicked) := by
  refine ⟨?_, ?_, ?_, ?_⟩
  · intro p input o hs
    constructor
    · intro h
      simp only [parse, hs, Bool.false_eq_true, if_false] at h
      cases hq : p input with
      | err st m =>
        cases m with
        | Backtrack e => simp only [hq] at h; exact ParseAll.noConfusion h
        | Cut e => simp only [hq] at h; exact ParseAll.noConfusion h
        | Incomplete n => simp only [hq] at h; exact ParseAll.noConfusion h
      | ok i1 o1 =>
        simp only [hq] at h
        by_cases he : i1.input = []
        · simp only [eof, he, if_pos] at h
          injection h with h1
          exact ⟨i1, by rw [h1], he⟩
        · simp only [eof, if_neg he] at h
          exact ParseAll.noConfusion h
    · rintro ⟨i1, hp, he⟩
      simp only [parse, hs, Bool.false_eq_true, if_false, hp, eof, he, if_pos]
  · rintro p input s1 e hs (h | h) <;>
      simp only [parse, hs, Bool.false_eq_true, if_false, h]
  · intro p input i1 o hs hp hne
    simp only [parse, hs, Bool.false_eq_true, if_false, hp, eof, if_neg hne]
  · intro p input hs
    simp only [parse, hs, if_true]

/-- C3 witness: the success characterization applied to a concrete tag
parser consuming all of its input. -/
theorem C3_witness :
    parse (tag (E := InputError) [97]) ⟨[97], false⟩ = ParseAll.ok [97] :=
  ((C3_parse_all InputError (List Nat)).1 (tag [97]) ⟨[97], false⟩ [97] rfl).mpr
    ⟨⟨[], false⟩, by decide, rfl⟩

/-- C4: alt returns an Incomplete of any alternative immediately, without
trying later alternatives (the earlier alternatives having backtracked),
and the S2 scenarios hold: over a partial byte stream,
`alt((tag("a"), tag("bc"), tag("def")))` gives Incomplete(1) on `""`,
`"b"` and `"de"`, Ok(rest `"d"`, out `"bc"`) on `"bcd"`, Backtrack kind
Tag on `"cde"`, and Ok(rest `"g"`, out `"def"`) on `"defg"`. -/
theorem C4_alt_incomplete :
    (∀ (E O : Type) [inst : ParseError E] (ps qs : List (Parser E O)) (p : Parser E O)
        (s s1 : Stream) (n : Nat),
      (∀ q ∈ ps, isBacktrack (q s) = true) →
      p s = PResult.err s1 (ErrMode.Incomplete n) →
      altList (ps ++ p :: qs) s = PResult.err s1 (ErrMode.Incomplete n)) ∧
    altList [tag (E := InputError) [97], tag [98, 99], tag [100, 101, 102]] ⟨[], true⟩
      = PResult.err ⟨[], true⟩ (ErrMode.Incomplete 1) ∧
    altList [tag (E := InputError) [97], tag [98, 99], tag [100, 101, 102]] ⟨[98], true⟩
      = PResult.err ⟨[98], true⟩ (ErrMode.Incomplete 1) ∧
    altList [tag (E := InputError) [97], tag [98, 99], tag [100, 101, 102]] ⟨[98, 99, 100], true⟩
      = PResult.ok ⟨[100], true⟩ [98, 99] ∧
    altList [tag (E := InputError) [97], tag [98, 99], tag [100, 101, 102]] ⟨[99, 100, 101], true⟩
      = PResult.err ⟨[99, 100, 101], true⟩
          (ErrMode.Backtrack (⟨[99, 100, 101], true⟩, ErrorKind.Tag)) ∧
    altList [tag (E := InputError) [97], tag [98, 99], tag [100, 101, 102]] ⟨[100, 101], true⟩
      = PResult.err ⟨[100, 101], true⟩ (ErrMode.Incomplete 1) ∧
    altList [tag (E := InputError) [97], tag [98, 99], tag [100, 101, 102]]
        ⟨[100, 101, 102, 103], true⟩
      = PResult.ok ⟨[103], true⟩ [100, 101, 102] := by
  refine ⟨?_, by decide, by decide, by decide, by decide, by decide, by decide⟩
  intro E O inst ps qs p s s1 n hps hp
  exact altGo_incomplete ps qs p s s1 n hps hp none

/-- C4 witness: the general conjunct applied to the concrete alternatives
of the S2 scenario on input `"b"`. -/
theorem C4_witness :
    altList [tag (E := InputError) [97], tag [98, 99], tag [100, 101, 102]] ⟨[98], true⟩
      = PResult.err ⟨[98], true⟩ (ErrMode.Incomplete 1) :=
  C4_alt_incomplete.1 InputError (List Nat) [tag [97]] [tag [100, 101, 102]] (tag [98, 99])
    ⟨[98], true⟩ ⟨[98], true⟩ 1
    (by intro q hq; rw [List.mem_singleton] at hq; subst hq; decide) (by decide)

/-- C5: when every alternative backtracks, alt returns a Backtrack whose
error appends a context with position equal to alt's starting position and
kind Alt atop the error of the last alternative's Backtrack. -/
theorem C5_alt_all_backtrack (E O : Type) [ParseError E]
    (ps : List (Parser E O)) (plast : Parser E O) (s s1 : Stream) (e : E)
    (hps : ∀ q ∈ ps, isBacktrack (q s) = true)
    (hl : plast s = PResult.err s1 (ErrMode.Backtrack e)) :
    altList (ps ++ [plast]) s
      = PResult.err s (ErrMode.Backtrack (ParseError.append e s ErrorKind.Alt)) :=
  altGo_all_backtrack ps plast s s1 e hps hl none

/-- C5 witness: two backtracking tags; the result appends the Alt context
atop the last tag's error (for `InputError`, `append` keeps the inner
error). -/
theorem C5_witness :
    altList [tag (E := InputError) [97], tag [98, 99]] ⟨[122, 122], true⟩
      = PResult.err ⟨[122, 122], true⟩
          (ErrMode.Backtrack (⟨[122, 122], true⟩, ErrorKind.Tag)) :=
  C5_alt_all_backtrack InputError (List Nat) [tag [97]] (tag [98, 99]) ⟨[122, 122], true⟩
    ⟨[122, 122], true⟩ (⟨[122, 122], true⟩, ErrorKind.Tag)
    (by intro q hq; rw [List.mem_singleton] at hq; subst hq; decide) (by decide)

/-- C6: alt is left-biased: if the first alternative succeeds, alt returns
exactly its result, regardless of the second alternative. -/
theorem C6_alt_left_bias (E O : Type) [ParseError E] (p1 p2 : Parser E O)
    (s s1 : Stream) (o : O) (h : p1 s = PResult.ok s1 o) :
    altList [p1, p2] s = p1 s := by
  simp only [altList, altGo, h]

/-- C6 witness: `alt((tag("abcd"), tag("efgh")))` on `"abcd"` returns
exactly `tag("abcd")`'s result. -/
theorem C6_witness :
    altList [tag (E := InputError) [97, 98, 99, 100], tag [101, 102, 103, 104]]
        ⟨[97, 98, 99, 100], false⟩
      = tag (E := InputError) [97, 98, 99, 100] ⟨[97, 98, 99, 100], false⟩ :=
  C6_alt_left_bias InputError (List Nat) (tag [97, 98, 99, 100]) (tag [101, 102, 103, 104])
    ⟨[97, 98, 99, 100], false⟩ ⟨[], false⟩ [97, 98, 99, 100] (by decide)

/-- C7 counterexample: an input that matches the parsers in some other
order, each exactly once, on which permutation nonetheless fails: with
parsers `(tag "a", tag "ab")` on `"aba"`, running them in the order
`(tag "ab", tag "a")` matches the whole input (first conjunct), yet
permutation greedily commits `tag "a"` to the first byte in round one and
returns Backtrack (second conjunct), refuting the claim's universal
success condition. -/
theorem C7_ctrex :
    tupleList [tag (E := InputError) [97, 98], tag [97]] ⟨[97, 98, 97], true⟩
      = PResult.ok ⟨[], true⟩ [[97, 98], [97]] ∧
    permutation [tag (E := InputError) [97], tag [97, 98]] ⟨[97, 98, 97], true⟩
      = PResult.err ⟨[98, 97], true⟩
          (ErrMode.Backtrack (⟨[98, 97], true⟩, ErrorKind.Tag)) := by
  decide

/-- C7 amended: permutation tries the not-yet-matched parsers in
declaration order each round and commits to the first success without
revisiting the choice, so an input that matches the parsers only under
some other, non-greedy order need not be accepted; but whenever it does
succeed, it assembles the output tuple in the declaration order of the
parser tuple, independent of the actual order in which the parsers
matched the input: each position of the output list is an output of the
parser declared at that same position (general conjunct), and the three
S3 scenarios `"abcdefghijk"`, `"efgabcdhijk"` and `"hiefgabcdjk"` all
yield rest `"jk"` and outputs `("abcd", "efg", "hi")` in declaration
order. -/
theorem C7_permutation_order :
    (∀ (E O : Type) [inst : ParseError E] (ps : List (Parser E O)) (s rest : Stream)
        (os : List O),
      permutation ps s = PResult.ok rest os →
      List.Forall₂ (fun (o : O) (p : Parser E O) =>
        ∃ s0 s1, p s0 = PResult.ok s1 o) os ps) ∧
    permutation [tag (E := InputError) [97, 98, 99, 100], tag [101, 102, 103], tag [104, 105]]
        ⟨[97, 98, 99, 100, 101, 102, 103, 104, 105, 106, 107], true⟩
      = PResult.ok ⟨[106, 107], true⟩ [[97, 98, 99, 100], [101, 102, 103], [104, 105]] ∧
    permutation [tag (E := InputError) [97, 98, 99, 100], tag [101, 102, 103], tag [104, 105]]
        ⟨[101, 102, 103, 97, 98, 99, 100, 104, 105, 106, 107], true⟩
      = PResult.ok ⟨[106, 107], true⟩ [[97, 98, 99, 100], [101, 102, 103], [104, 105]] ∧
    permutation [tag (E := InputError) [97, 98, 99, 100], tag [101, 102, 103], tag [104, 105]]
        ⟨[104, 105, 101, 102, 103, 97, 98, 99, 100, 106, 107], true⟩
      = PResult.ok ⟨[106, 107], true⟩ [[97, 98, 99, 100], [101, 102, 103], [104, 105]] := by
  refine ⟨?_, by decide, by decide, by decide⟩
  intro E O inst ps s rest os h
  exact permLoop_ok_forall2 ps.length (ps.map fun p => (p, none)) ps s rest os h
    (slotInv_init ps)

/-- C7 witness: the declaration-order conjunct applied to the first S3
scenario: each output position pairs with the parser declared there. -/
theorem C7_witness :
    List.Forall₂
      (fun (o : List Nat) (p : Parser InputError (List Nat)) =>
        ∃ s0 s1, p s0 = PResult.ok s1 o)
      [[97, 98, 99, 100], [101, 102, 103], [104, 105]]
      [tag [97, 98, 99, 100], tag [101, 102, 103], tag [104, 105]] :=
  C7_permutation_order.1 InputError (List Nat)
    [tag [97, 98, 99, 100], tag [101, 102, 103], tag [104, 105]]
    ⟨[97, 98, 99, 100, 101, 102, 103, 104, 105, 106, 107], true⟩ ⟨[106, 107], true⟩
    [[97, 98, 99, 100], [101, 102, 103], [104, 105]] (by decide)

/-- C8: permutation does not short-circuit on Incomplete: when an
unmatched parser reports Incomplete in a round, the remaining unmatched
parsers of the round are still tried (a later success makes the round
succeed), and only if every other parser of the round is matched or
backtracks does the loop return the remembered Incomplete; in particular
`permutation((tag("abcd"), tag("efg"), tag("hi")))` on the partial input
`"efgabc"` returns Incomplete(1). -/
theorem C8_permutation_incomplete :
    (∀ (E O : Type) [inst : ParseError E] (pre post : List (Slot E O)) (p : Parser E O)
        (s s1 : Stream) (n fuel : Nat),
      (∀ q ∈ pre, q.2.isSome = true ∨ isBacktrack (q.1 s) = true) →
      p s = PResult.err s1 (ErrMode.Incomplete n) →
      (∀ q ∈ post, q.2.isSome = true ∨ isBacktrack (q.1 s) = true) →
      permLoop (fuel + 1) (pre ++ (p, none) :: post) s
        = PResult.err s (ErrMode.Incomplete n)) ∧
    (∀ (E O : Type) (p q : Parser E O) (rest : List (Slot E O)) (s s1 s2 : Stream)
        (n : Nat) (o : O),
      p s = PResult.err s1 (ErrMode.Incomplete n) → q s = PResult.ok s2 o →
      permRound s ((p, none) :: (q, none) :: rest)
        = RoundResult.success ((p, none) :: (q, some o) :: rest) s2) ∧
    permutation [tag (E := InputError) [97, 98, 99, 100], tag [101, 102, 103], tag [104, 105]]
        ⟨[101, 102, 103, 97, 98, 99], true⟩
      = PResult.err ⟨[97, 98, 99], true⟩ (ErrMode.Incomplete 1) := by
  refine ⟨?_, ?_, by decide⟩
  · intro E O inst pre post p s s1 n fuel hpre hp hpost
    exact permLoop_incomplete s pre post p s1 n fuel hpre hp hpost
  · intro E O p q rest s s1 s2 n o hp hq
    simp only [permRound, hp, hq]

/-- C8 witness: the keep-trying conjunct applied to a concrete round in
which the first unmatched parser is Incomplete and the second succeeds. -/
theorem C8_witness :
    permRound (⟨[97, 98, 99], true⟩ : Stream)
        [(tag (E := InputError) [97, 98, 99, 100], none), (tag [97], none)]
      = RoundResult.success
          [(tag (E := InputError) [97, 98, 99, 100], none), (tag [97], some [97])]
          ⟨[98, 99], true⟩ :=
  C8_permutation_incomplete.2.1 InputError (List Nat) (tag [97, 98, 99, 100]) (tag [97]) []
    ⟨[97, 98, 99], true⟩ ⟨[97, 98, 99], true⟩ ⟨[98, 99], true⟩ 1 [97]
    (by decide) (by decide)

/-- C9: parsers over complete streams never produce Incomplete: the leaf
parsers and the combinators of the core preserve the complete-safety
predicate, and for any complete-safe parser on a complete stream,
`Parser::parse` never reaches either `expect` on `into_inner` (it never
panics). -/
theorem C9_complete_no_incomplete (E : Type) [ParseError E] :
    (∀ lit : List Nat, CompleteSafe (tag (E := E) lit)) ∧
    (∀ n : Nat, CompleteSafe (take (E := E) n)) ∧
    CompleteSafe (be_u16 (E := E)) ∧
    CompleteSafe (eof (E := E)) ∧
    (∀ (A B C : Type) (p1 : Parser E A) (p2 : Parser E B) (p3 : Parser E C),
      CompleteSafe p1 → CompleteSafe p2 → CompleteSafe p3 →
        CompleteSafe (tuple3 p1 p2 p3)) ∧
    (∀ (O : Type) (ps : List (Parser E O)),
      (∀ p ∈ ps, CompleteSafe p) → CompleteSafe (tupleList ps)) ∧
    (∀ (O : Type) (ps : List (Parser E O)),
      (∀ p ∈ ps, CompleteSafe p) → CompleteSafe (altList ps)) ∧
    (∀ (O : Type) (p : Parser E O) (input : Stream),
      CompleteSafe p → input.streaming = false → parse p input ≠ ParseAll.panicked) :=
  ⟨tag_completeSafe, take_completeSafe, be_u16_completeSafe, eof_completeSafe,
   fun _A _B _C p1 p2 p3 => tuple3_completeSafe p1 p2 p3,
   fun _O ps => tupleList_completeSafe ps,
   fun _O ps => altList_completeSafe ps,
   fun _O p input => parse_ne_panicked p input⟩

/-- C9 witness: a complete-safe tag parser on a complete stream; `parse`
does not panic. -/
theorem C9_witness :
    parse (tag (E := InputError) [97, 98]) ⟨[97, 98], false⟩ ≠ ParseAll.panicked :=
  (C9_complete_no_incomplete InputError).2.2.2.2.2.2.2 (List Nat) (tag [97, 98])
    ⟨[97, 98], false⟩ ((C9_complete_no_incomplete InputError).1 [97, 98]) rfl

/-- C10: a parser built by `unpeek(f)` is atomic on error: when the
peek-style function returns any error outcome the caller's input cursor is
left exactly as it was before the call, and only on success is the input
replaced by the remainder returned by the function, with its output
yielded. -/
theorem C10_unpeek_atomic (E O : Type) :
    (∀ (f : Stream → Except (ErrMode E) (Stream × O)) (input : Stream) (m : ErrMode E),
      f input = Except.error m → unpeek f input = PResult.err input m) ∧
    (∀ (f : Stream → Except (ErrMode E) (Stream × O)) (input i1 : Stream) (o : O),
      f input = Except.ok (i1, o) → unpeek f input = PResult.ok i1 o) := by
  constructor
  · intro f input m h
    simp only [unpeek, h]
  · intro f input i1 o h
    simp only [unpeek, h]

/-- C10 witness: a constant-error peek function; the cursor is untouched. -/
theorem C10_witness :
    unpeek (E := InputError) (O := Unit)
        (fun s => Except.error (ErrMode.Backtrack (s, ErrorKind.Tag)))
        (⟨[97], true⟩ : Stream)
      = PResult.err (⟨[97], true⟩ : Stream)
          (ErrMode.Backtrack ((⟨[97], true⟩, ErrorKind.Tag) : InputError)) :=
  (C10_unpeek_atomic InputError Unit).1
    (fun s => Except.error (ErrMode.Backtrack ((s, ErrorKind.Tag) : InputError)))
    ⟨[97], true⟩ (ErrMode.Backtrack (⟨[97], true⟩, ErrorKind.Tag)) rfl

end Winnow
